import Mathlib

/-! The `mll` command line harness (`src/shared/mll/src/main.c`).

A shallow embedding of `print_array` and `main`, followed by the properties of the
harness that its specification states.

Conventions of the embedding.

* A C `int` is an `Int`; signed arithmetic that leaves `[-INT_MAX - 1, INT_MAX]` is
  undefined behaviour and is reported as `Fault.intOverflow`.
* A `double` buffer is a `List α` of fixed length; an access outside the buffer is
  reported as `Fault.outOfBounds`.
* The C library is not part of the program.  The three facts about `double` that the
  program takes from it are the fields of `Libc`: the value that `memset (.., 0, ..)`
  leaves in a `double`, the function `atof`, and the text `printf` produces for `%f`.
* The external function `mll` is a parameter (`MllFn`): it sees both buffers and may
  replace the contents of either, but it cannot change their extent.
* Standard output is the `String` of everything written so far.
* Loops run on a step budget (`fuel`); running out of it is `Fault.outOfFuel`.
-/

namespace Mll

/-- Largest value of a 32 bit C `int`. -/
def INT_MAX : Int := 2147483647

/-- The value of `EXIT_SUCCESS` from `stdlib.h`. -/
def EXIT_SUCCESS : Int := 0

/-- Reasons why a run of the model stops without a result. -/
inductive Fault where
  /-- the step budget of the model ran out -/
  | outOfFuel
  /-- an array was indexed outside its extent -/
  | outOfBounds
  /-- signed arithmetic left the range of `int` -/
  | intOverflow
  /-- a variable length array was declared with a size that is not positive -/
  | badArraySize
  deriving DecidableEq

/-- What the program uses from the C library about `double`, over a carrier `α`. -/
structure Libc (α : Type) where
  /-- the `double` all of whose bytes are zero, as `memset (p, 0, n)` leaves it -/
  zero : α
  /-- `atof` from `stdlib.h` -/
  atof : String → α
  /-- the characters `printf` writes for the conversion `%f` -/
  fmt_f : α → String

/-- The external `void mll(double* restrict in, double* restrict out)`: given the
contents of the two buffers it returns their contents after the call.  Neither
pointer is `const`, so both buffers may change; their extent cannot. -/
structure MllFn (α : Type) where
  call : List α → List α → List α × List α
  length_in : ∀ i o, (call i o).1.length = i.length
  length_out : ∀ i o, (call i o).2.length = o.length

/-- The rvalue `p[i]`. -/
def readAt {β : Type} (p : List β) (i : Int) : Except Fault β :=
  if 0 ≤ i then
    match p[i.toNat]? with
    | some x => .ok x
    | none => .error .outOfBounds
  else .error .outOfBounds

/-- The assignment `p[i] = x`: the array after it. -/
def writeAt {β : Type} (p : List β) (i : Int) (x : β) : Except Fault (List β) :=
  if 0 ≤ i ∧ i.toNat < p.length then .ok (p.set i.toNat x) else .error .outOfBounds

/-- The value of `i + 1` on an `int`, as `++i`, `num_ins++` and `num_ins + 1` compute it. -/
def incr (i : Int) : Except Fault Int :=
  if i + 1 ≤ INT_MAX then .ok (i + 1) else .error .intOverflow

/-- Conversion of an `int` to `size_t` (64 bit): reduction modulo `2 ^ 64`. -/
def to_size_t (x : Int) : Nat := (x % 2 ^ 64).toNat

/-- Conversion of a `size_t` to `int`, as an argument of `print_array`: the value
itself when it fits, otherwise reduction modulo `2 ^ 32` into the signed range. -/
def size_t_to_int (n : Nat) : Int :=
  let r : Int := (n : Int) % 2 ^ 32
  if r ≤ INT_MAX then r else r - 2 ^ 32

/-- The loop of `print_array` (lines 11-14), entered with loop variable `i`, current
separator `sep`, and `out` the text written by this call so far. -/
def print_array_loop {α : Type} (L : Libc α) (n : Int) (a : List α) :
    Nat → Int → String → String → Except Fault String
  | 0, _, _, _ => .error .outOfFuel
  | fuel + 1, i, sep, out =>
    if i = n then .ok out
    else do
      let x ← readAt a i
      let out := out ++ sep ++ L.fmt_f x   -- printf("%s%f", sep, a[i]);
      let sep := ", "                      -- sep = ", ";
      let i ← incr i                       -- ++i
      print_array_loop L n a fuel i sep out

/-- The function `void print_array(int n, double* a)` (lines 8-16): the text it writes. -/
def print_array {α : Type} (L : Libc α) (fuel : Nat) (n : Int) (a : List α) :
    Except Fault String := do
  let sep := ""
  let out := "("
  let out ← print_array_loop L n a fuel 0 sep out
  .ok (out ++ ")\n")

/-- The variables of `main` that the argument loop reads and writes. -/
structure LoopState (α : Type) where
  i : Int
  backwards : Bool
  inputs : List α
  num_ins : Int

/-- One iteration of the argument loop of `main` (lines 25-31): the body, then `++i`. -/
def main_loop_body {α : Type} (L : Libc α) (argv : List String) (s : LoopState α) :
    Except Fault (LoopState α) := do
  let arg ← readAt argv s.i
  let s ←
    if arg = "-b" then                                     -- strcmp(argv[i], "-b") == 0
      (.ok { s with backwards := true } : Except Fault (LoopState α))
    else do
      let inputs ← writeAt s.inputs s.num_ins (L.atof arg)  -- inputs[num_ins++] = atof(argv[i]);
      let num_ins ← incr s.num_ins
      .ok { s with inputs := inputs, num_ins := num_ins }
  let i ← incr s.i
  .ok { s with i := i }

/-- The argument loop of `main`: `for (int i = 1; i != argc; ++i) ...`, entered in
state `s`. -/
def main_loop {α : Type} (L : Libc α) (argc : Int) (argv : List String) :
    Nat → LoopState α → Except Fault (LoopState α)
  | 0, _ => .error .outOfFuel
  | fuel + 1, s =>
    if s.i = argc then .ok s
    else do
      let s ← main_loop_body L argv s
      main_loop L argc argv fuel s

/-- The variables of `main` and its output at the point where `mll` is called. -/
structure Frame (α : Type) where
  backwards : Bool
  inputs : List α
  num_ins : Int
  num_outs : Nat
  outputs : List α
  stdout : String

/-- Lines 19-38 of `main`: everything up to, and not including, the call of `mll`. -/
def main_before_mll {α : Type} (L : Libc α) (fuel : Nat) (argc : Int) (argv : List String) :
    Except Fault (Frame α) := do
  let backwards := false
  -- double inputs[argc]; memset(inputs, 0, sizeof(double) * argc);
  if argc ≤ 0 then throw Fault.badArraySize
  let inputs := List.replicate argc.toNat L.zero
  let num_ins : Int := 0
  let s ← main_loop L argc argv fuel
    { i := 1, backwards := backwards, inputs := inputs, num_ins := num_ins }
  -- size_t num_outs = backwards ? num_ins + 1 : 1;
  let n ← if s.backwards then incr s.num_ins else (.ok 1 : Except Fault Int)
  let num_outs := to_size_t n
  -- double outputs[num_outs]; memset(outputs, 0, sizeof(double) * num_outs);
  if num_outs = 0 then throw Fault.badArraySize
  let outputs := List.replicate num_outs L.zero
  let stdout := "mll"
  let text ← print_array L fuel s.num_ins s.inputs
  .ok { backwards := s.backwards, inputs := s.inputs, num_ins := s.num_ins,
        num_outs := num_outs, outputs := outputs, stdout := stdout ++ text }

/-- The function `int main(int argc, char** argv)` (lines 18-44): the exit status and
everything written to standard output. -/
def main {α : Type} (L : Libc α) (m : MllFn α) (fuel : Nat) (argc : Int) (argv : List String) :
    Except Fault (Int × String) := do
  let f ← main_before_mll L fuel argc argv
  let r := m.call f.inputs f.outputs                       -- mll(inputs, outputs);
  let stdout := f.stdout ++ "=> "
  let text ← print_array L fuel (size_t_to_int f.num_outs) r.2
  .ok (EXIT_SUCCESS, stdout ++ text)

/-! ## A small concrete C library and two implementations of `mll`, for evaluation -/

/-- Value of a decimal digit character. -/
def digitVal (c : Char) : Nat := c.toNat - 48

/-- A `Libc` over the natural numbers, standing for the doubles `0.0, 1.0, 2.0, ...`:
`atof` reads the leading decimal digits (none: `0`), and `%f` writes the decimal
digits followed by `.000000`. -/
def natLibc : Libc Nat where
  zero := 0
  atof := fun s => (s.toList.takeWhile Char.isDigit).foldl (fun acc c => 10 * acc + digitVal c) 0
  fmt_f := fun x => String.mk (Nat.toDigits 10 x) ++ ".000000"

/-- An `mll` that touches neither buffer. -/
def mllSkip (α : Type) : MllFn α where
  call := fun i o => (i, o)
  length_in := fun _ _ => rfl
  length_out := fun _ _ => rfl

/-- An `mll` that stores `x` in every slot of both buffers. -/
def mllFill {α : Type} (x : α) : MllFn α where
  call := fun i o => (i.map (fun _ => x), o.map (fun _ => x))
  length_in := fun _ _ => by simp
  length_out := fun _ _ => by simp



/-! ## Text from which `atof` converts a number -/

/-- White space as `isspace` sees it in the C locale: the space and the controls 9 to 13. -/
def isSpaceC (c : Char) : Bool := c.toNat = 32 || (9 ≤ c.toNat && c.toNat ≤ 13)

/-- A decimal digit. -/
def isDigitC (c : Char) : Bool := 48 ≤ c.toNat && c.toNat ≤ 57

/-- The characters of `s` behind leading white space and one optional sign: the place
where the number that `strtod`, and so `atof`, converts has to start. -/
def afterSign (s : String) : List Char :=
  match s.toList.dropWhile isSpaceC with
  | c :: cs => if c = '+' ∨ c = '-' then cs else c :: cs
  | [] => []

/-- The text has a minus sign behind its leading white space. -/
def isNegative (s : String) : Bool :=
  match s.toList.dropWhile isSpaceC with
  | c :: _ => c = '-'
  | [] => false

/-- The characters `cs` start with the lower case word `w`, letter case ignored. -/
def startsWithWord (w cs : List Char) : Bool :=
  (cs.take w.length).map Char.toLower == w

/-- The text `s` starts with a number in the sense of `strtod` (C standard, 7.22.1.3):
behind white space and an optional sign comes a digit, or a decimal point and a digit,
or `inf` or `nan` in any letter case.  Text for which this is false is text from which
`atof` can convert nothing, such as `abc`. -/
def hasNumber (s : String) : Bool :=
  match afterSign s with
  | c :: cs =>
    isDigitC c || (c = '.' && (cs.head?.map isDigitC).getD false) ||
      startsWithWord ['i', 'n', 'f'] (c :: cs) || startsWithWord ['n', 'a', 'n'] (c :: cs)
  | [] => false

/-- The rule of the C library for `strtod` and `atof`: when no conversion can be
performed, zero is returned. -/
def AtofZeroWithoutNumber {α : Type} (L : Libc α) : Prop :=
  ∀ s : String, hasNumber s = false → L.atof s = L.zero

/-- A carrier for the doubles that are whole numbers with a sign, the two infinities,
and NaN. -/
inductive Dbl where
  /-- the double `n.0`, negated when `neg` -/
  | fin (neg : Bool) (n : Nat)
  /-- infinity, negated when `neg` -/
  | inf (neg : Bool)
  /-- a NaN -/
  | nan
  deriving DecidableEq

/-- A `Libc` over `Dbl`.  Its `atof` does what the C library does on text without a
number, on `inf` and `nan`, and on whole decimal numerals with or without a sign; its
`%f` writes whole numbers with six zero decimals, and `inf` and `nan` as those words. -/
def dblLibc : Libc Dbl where
  zero := Dbl.fin false 0
  atof := fun s =>
    if hasNumber s then
      if startsWithWord ['n', 'a', 'n'] (afterSign s) then Dbl.nan
      else if startsWithWord ['i', 'n', 'f'] (afterSign s) then Dbl.inf (isNegative s)
      else Dbl.fin (isNegative s)
        (((afterSign s).takeWhile isDigitC).foldl (fun acc c => 10 * acc + digitVal c) 0)
    else Dbl.fin false 0
  fmt_f := fun x =>
    match x with
    | Dbl.fin neg n => (if neg then "-" else "") ++ String.mk (Nat.toDigits 10 n) ++ ".000000"
    | Dbl.inf neg => (if neg then "-" else "") ++ "inf"
    | Dbl.nan => "nan"

/-! ## The behaviour the specification describes, written out -/

/-- The input vector of the specification: the arguments other than `-b`, each
converted with `atof`, in command line order. -/
def inputVector {α : Type} (L : Libc α) (args : List String) : List α :=
  (args.filter (fun a => a ≠ "-b")).map L.atof

/-- The text of a vector in the specification: the `%f` renderings of the elements
joined by `", "`, between `(` and `)` and a newline. -/
def formatVector {α : Type} (L : Libc α) (xs : List α) : String :=
  "(" ++ String.intercalate ", " (xs.map L.fmt_f) ++ ")\n"

/-- The number of output slots of the specification: one, or one more than the number
of inputs when `-b` is among the arguments. -/
def outputLength {α : Type} (L : Libc α) (args : List String) : Nat :=
  if "-b" ∈ args then (inputVector L args).length + 1 else 1

/-- The state of the argument loop after one iteration on the argument `a`. -/
def afterArg {α : Type} (L : Libc α) (s : LoopState α) (a : String) : LoopState α :=
  if a = "-b" then { s with backwards := true, i := s.i + 1 }
  else { i := s.i + 1, backwards := s.backwards,
         inputs := s.inputs.set s.num_ins.toNat (L.atof a), num_ins := s.num_ins + 1 }

/-- The state of the argument loop after `k` iterations from `s`. -/
def iterate_body {α : Type} (L : Libc α) (argv : List String) :
    Nat → LoopState α → Except Fault (LoopState α)
  | 0, s => .ok s
  | k + 1, s => main_loop_body L argv s >>= iterate_body L argv k

/-- The state of the argument loop after one iteration on each argument of `args`. -/
def afterArgs {α : Type} (L : Libc α) (s : LoopState α) (args : List String) : LoopState α :=
  args.foldl (afterArg L) s

/-- The state in which `main` enters the argument loop. -/
def loopInit {α : Type} (L : Libc α) (argc : Int) : LoopState α :=
  { i := 1, backwards := false, inputs := List.replicate argc.toNat L.zero, num_ins := 0 }

/-- The list `l'` is `l` with further `-b` tokens inserted at any positions. -/
inductive FlagsInserted : List String → List String → Prop where
  | nil : FlagsInserted [] []
  | keep (a : String) {l l' : List String} : FlagsInserted l l' → FlagsInserted (a :: l) (a :: l')
  | flag {l l' : List String} : FlagsInserted l l' → FlagsInserted l ("-b" :: l')

/-! ## Lemmas on `print_array` -/

theorem intercalate_go_append (s : String) (l : List String) (p acc : String) :
    String.intercalate.go (p ++ acc) s l = p ++ String.intercalate.go acc s l := by
  induction l generalizing acc with
  | nil => simp [String.intercalate.go]
  | cons a l ih =>
    simp only [String.intercalate.go]
    rw [String.append_assoc, String.append_assoc, ← String.append_assoc acc, ih]

theorem ok_bind {β γ : Type} (x : β) (f : β → Except Fault γ) :
    (Except.ok x >>= f) = f x := rfl

theorem readAt_ofNat {β : Type} (p : List β) (j : Nat) (h : j < p.length) :
    readAt p (j : Int) = .ok p[j] := by
  simp [readAt, List.getElem?_eq_getElem h]

theorem incr_ok (i : Int) (h : i + 1 ≤ INT_MAX) : incr i = .ok (i + 1) := by
  simp [incr, h]

theorem print_array_loop_spec {α : Type} (L : Libc α) (N : Nat) (a : List α)
    (hN : N ≤ a.length) (hmax : (N : Int) ≤ INT_MAX) :
    ∀ (k j : Nat) (out : String) (fuel : Nat), j + k = N → k < fuel →
      print_array_loop L (N : Int) a fuel (j : Int) ", " out
        = .ok (String.intercalate.go out ", " (((a.drop j).take k).map L.fmt_f)) := by
  intro k
  induction k with
  | zero =>
    intro j out fuel hj hf
    obtain ⟨f, rfl⟩ : ∃ f, fuel = f + 1 := ⟨fuel - 1, by omega⟩
    have : j = N := by omega
    subst this
    simp [print_array_loop, String.intercalate.go]
  | succ k ih =>
    intro j out fuel hj hf
    obtain ⟨f, rfl⟩ : ∃ f, fuel = f + 1 := ⟨fuel - 1, by omega⟩
    have hjN : j < N := by omega
    have hja : j < a.length := by omega
    have hne : ¬ ((j : Int) = (N : Int)) := by omega
    have hinc : incr (j : Int) = .ok ((j + 1 : Nat) : Int) := by
      rw [incr_ok _ (by omega)]; simp
    have hdrop : (a.drop j).take (k + 1) = a[j] :: (a.drop (j + 1)).take k := by
      rw [List.drop_eq_getElem_cons hja, List.take_succ_cons]
    rw [print_array_loop, if_neg hne, readAt_ofNat a j hja, hinc]
    show print_array_loop L (↑N) a f (↑(j + 1)) ", " (out ++ ", " ++ L.fmt_f a[j]) = _
    rw [ih (j + 1) _ f (by omega) (by omega), hdrop]
    simp only [List.map_cons, String.intercalate.go]

theorem print_array_spec {α : Type} (L : Libc α) (fuel : Nat) (n : Int) (a : List α)
    (h0 : 0 ≤ n) (hlen : n ≤ a.length) (hmax : n ≤ INT_MAX) (hf : n < fuel) :
    print_array L fuel n a = .ok (formatVector L (a.take n.toNat)) := by
  obtain ⟨N, rfl⟩ : ∃ N : Nat, n = N := ⟨n.toNat, by omega⟩
  have hN : N ≤ a.length := by omega
  have hfN : N < fuel := by omega
  obtain ⟨f, rfl⟩ : ∃ f, fuel = f + 1 := ⟨fuel - 1, by omega⟩
  cases N with
  | zero =>
    rw [print_array, print_array_loop, if_pos (by simp)]
    rfl
  | succ M =>
    have hne : ¬ ((0 : Int) = ((M + 1 : Nat) : Int)) := by omega
    have hja : 0 < a.length := by omega
    have hinc : incr (0 : Int) = .ok ((1 : Nat) : Int) := by
      rw [incr_ok _ (by simp [INT_MAX])]; simp
    have hr : readAt a (0 : Int) = .ok a[0] := readAt_ofNat a 0 hja
    have htake : a.take (M + 1) = a[0] :: (a.drop 1).take M := by
      cases a with
      | nil => simp at hja
      | cons x xs => simp
    rw [print_array, print_array_loop, if_neg hne, hr, hinc]
    show (print_array_loop L (↑(M + 1)) a f (↑(1 : Nat)) ", " ("(" ++ "" ++ L.fmt_f a[0])
      >>= fun out => Except.ok (out ++ ")\n")) = _
    rw [print_array_loop_spec L (M + 1) a hN hmax M 1 _ f (by omega) (by omega)]
    show Except.ok (_ ++ ")\n") = _
    rw [formatVector, Int.toNat_ofNat, htake, List.map_cons, String.intercalate]
    rw [show ("(" ++ "" ++ L.fmt_f a[0]) = "(" ++ L.fmt_f a[0] by simp]
    rw [intercalate_go_append]

/-! ## Lemmas on the argument loop -/

theorem readAt_mid {β : Type} (pre rest : List β) (a : β) :
    readAt (pre ++ a :: rest) (pre.length : Int) = .ok a := by
  have h : (pre ++ a :: rest)[pre.length]? = some a := by
    rw [List.getElem?_append_right (Nat.le_refl _)]
    simp
  rw [readAt, if_pos (by omega), Int.toNat_ofNat, h]

theorem writeAt_ok {β : Type} (p : List β) (i : Int) (x : β) (h0 : 0 ≤ i)
    (h : i.toNat < p.length) : writeAt p i x = .ok (p.set i.toNat x) := by
  rw [writeAt, if_pos ⟨h0, h⟩]

theorem afterArg_i {α : Type} (L : Libc α) (s : LoopState α) (a : String) :
    (afterArg L s a).i = s.i + 1 := by
  unfold afterArg; split <;> rfl

theorem afterArg_num_ins {α : Type} (L : Libc α) (s : LoopState α) (a : String) :
    (afterArg L s a).num_ins = s.num_ins + (inputVector L [a]).length := by
  unfold afterArg inputVector
  split
  · next h => simp [h]
  · next h => simp [h]

theorem afterArg_backwards {α : Type} (L : Libc α) (s : LoopState α) (a : String) :
    (afterArg L s a).backwards = (s.backwards || decide (a = "-b")) := by
  unfold afterArg
  split
  · next h => simp [h]
  · next h => simp [h]

theorem afterArg_inputs_length {α : Type} (L : Libc α) (s : LoopState α) (a : String) :
    (afterArg L s a).inputs.length = s.inputs.length := by
  unfold afterArg
  split
  · rfl
  · simp

theorem inputVector_cons_flag {α : Type} (L : Libc α) (rest : List String) :
    inputVector L ("-b" :: rest) = inputVector L rest := by
  simp [inputVector]

theorem inputVector_cons_other {α : Type} (L : Libc α) (a : String) (rest : List String)
    (h : a ≠ "-b") : inputVector L (a :: rest) = L.atof a :: inputVector L rest := by
  simp [inputVector, h]

theorem inputVector_append {α : Type} (L : Libc α) (l₁ l₂ : List String) :
    inputVector L (l₁ ++ l₂) = inputVector L l₁ ++ inputVector L l₂ := by
  simp [inputVector]

theorem inputVector_length_le {α : Type} (L : Libc α) (l : List String) :
    (inputVector L l).length ≤ l.length := by
  simp only [inputVector, List.length_map]
  exact List.length_filter_le _ _

theorem afterArgs_i {α : Type} (L : Libc α) (rest : List String) :
    ∀ s : LoopState α, (afterArgs L s rest).i = s.i + rest.length := by
  induction rest with
  | nil => intro s; simp [afterArgs]
  | cons a rest ih =>
    intro s
    have := ih (afterArg L s a)
    simp only [afterArgs, List.foldl_cons] at this ⊢
    rw [this, afterArg_i]
    simp only [List.length_cons]; push_cast; ring

theorem afterArgs_num_ins {α : Type} (L : Libc α) (rest : List String) :
    ∀ s : LoopState α, (afterArgs L s rest).num_ins = s.num_ins + (inputVector L rest).length := by
  induction rest with
  | nil => intro s; simp [afterArgs, inputVector]
  | cons a rest ih =>
    intro s
    have := ih (afterArg L s a)
    simp only [afterArgs, List.foldl_cons] at this ⊢
    rw [this, afterArg_num_ins]
    have h := inputVector_append L [a] rest
    simp only [List.singleton_append] at h
    rw [h, List.length_append]; push_cast; ring

theorem afterArgs_backwards {α : Type} (L : Libc α) (rest : List String) :
    ∀ s : LoopState α, (afterArgs L s rest).backwards = (s.backwards || decide ("-b" ∈ rest)) := by
  induction rest with
  | nil => intro s; simp [afterArgs]
  | cons a rest ih =>
    intro s
    have := ih (afterArg L s a)
    simp only [afterArgs, List.foldl_cons] at this ⊢
    rw [this, afterArg_backwards]
    by_cases h : a = "-b"
    · simp [h]
    · have h' : ¬ ("-b" = a) := fun e => h e.symm
      simp [h, h']

theorem afterArgs_inputs_length {α : Type} (L : Libc α) (rest : List String) :
    ∀ s : LoopState α, (afterArgs L s rest).inputs.length = s.inputs.length := by
  induction rest with
  | nil => intro s; simp [afterArgs]
  | cons a rest ih =>
    intro s
    have := ih (afterArg L s a)
    simp only [afterArgs, List.foldl_cons] at this ⊢
    rw [this, afterArg_inputs_length]

theorem take_succ_set {β : Type} (l : List β) (n : Nat) (x : β) (h : n < l.length) :
    (l.set n x).take (n + 1) = l.take n ++ [x] := by
  induction l generalizing n with
  | nil => simp at h
  | cons y ys ih =>
    cases n with
    | zero => simp
    | succ n =>
      simp only [List.set_cons_succ, List.take_succ_cons, List.cons_append]
      rw [ih n (by simpa using h)]

/-- The first `num_ins` slots of `inputs` after a run of iterations: what they held
before, followed by the input vector of the arguments gone through. -/
theorem afterArgs_inputs_take {α : Type} (L : Libc α) (rest : List String) :
    ∀ s : LoopState α, 0 ≤ s.num_ins →
      s.num_ins + (inputVector L rest).length ≤ s.inputs.length →
      (afterArgs L s rest).inputs.take (afterArgs L s rest).num_ins.toNat
        = s.inputs.take s.num_ins.toNat ++ inputVector L rest := by
  induction rest with
  | nil => intro s _ _; simp [afterArgs, inputVector]
  | cons a rest ih =>
    intro s h0 hle
    have hi := ih (afterArg L s a)
    simp only [afterArgs, List.foldl_cons] at hi ⊢
    by_cases h : a = "-b"
    · subst h
      rw [inputVector_cons_flag] at hle ⊢
      have e : afterArg L s "-b" = { s with backwards := true, i := s.i + 1 } := by
        simp [afterArg]
      rw [e] at hi ⊢
      exact hi h0 hle
    · rw [inputVector_cons_other L a rest h] at hle ⊢
      have e : afterArg L s a
          = ⟨s.i + 1, s.backwards, s.inputs.set s.num_ins.toNat (L.atof a), s.num_ins + 1⟩ := by
        simp [afterArg, h]
      rw [e] at hi ⊢
      simp only [List.length_cons, List.length_set] at hi hle
      push_cast at hle
      rw [hi (by omega) (by omega)]
      have e2 : (s.num_ins + 1).toNat = s.num_ins.toNat + 1 := by omega
      rw [e2, take_succ_set _ _ _ (by omega)]
      simp

/-- One iteration of the argument loop on the argument at position `i`, when the loop
invariant `0 ≤ num_ins < i` holds: it succeeds and yields `afterArg`. -/
theorem main_loop_body_spec {α : Type} (L : Libc α) (argv pre rest : List String) (a : String)
    (s : LoopState α) (hargv : argv = pre ++ a :: rest) (hi : s.i = pre.length)
    (hmax : (argv.length : Int) ≤ INT_MAX) (hn0 : 0 ≤ s.num_ins) (hn : s.num_ins < s.i)
    (hlen : s.inputs.length = argv.length) :
    main_loop_body L argv s = .ok (afterArg L s a) := by
  have hl : (argv.length : Int) = pre.length + rest.length + 1 := by
    rw [hargv]; simp only [List.length_append, List.length_cons]; push_cast; ring
  have hr : readAt argv s.i = .ok a := by rw [hargv, hi]; exact readAt_mid pre rest a
  have hinc : incr s.i = .ok (s.i + 1) := incr_ok _ (by omega)
  rw [main_loop_body, hr]
  by_cases h : a = "-b"
  · show (if a = "-b" then _ else _) = _
    rw [if_pos h]
    show (incr s.i >>= _) = _
    rw [hinc, afterArg, if_pos h]
    rfl
  · have hw : writeAt s.inputs s.num_ins (L.atof a)
        = .ok (s.inputs.set s.num_ins.toNat (L.atof a)) := writeAt_ok _ _ _ hn0 (by omega)
    have hinc2 : incr s.num_ins = .ok (s.num_ins + 1) := incr_ok _ (by omega)
    show (if a = "-b" then _ else _) = _
    rw [if_neg h, hw]
    show (incr s.num_ins >>= _) = _
    rw [hinc2]
    show (incr s.i >>= _) = _
    rw [hinc, afterArg, if_neg h]
    rfl

/-- Going through the arguments `mid` that follow position `pre.length` takes
`mid.length` iterations of the loop body, none of which faults. -/
theorem iterate_body_spec {α : Type} (L : Libc α) (argv : List String)
    (hmax : (argv.length : Int) ≤ INT_MAX) :
    ∀ (mid pre post : List String) (s : LoopState α), argv = pre ++ (mid ++ post) →
      s.i = pre.length → 0 ≤ s.num_ins → s.num_ins < s.i → s.inputs.length = argv.length →
      iterate_body L argv mid.length s = .ok (afterArgs L s mid) := by
  intro mid
  induction mid with
  | nil => intro pre post s _ _ _ _ _; rfl
  | cons a mid ih =>
    intro pre post s hargv hi hn0 hn hlen
    have hb := main_loop_body_spec L argv pre (mid ++ post) a s (by simpa using hargv)
      hi hmax hn0 hn hlen
    show (main_loop_body L argv s >>= iterate_body L argv mid.length) = _
    rw [hb]
    show iterate_body L argv mid.length (afterArg L s a) = _
    have hnum := afterArg_num_ins L s a
    have hle := inputVector_length_le L [a]
    simp only [List.length_singleton] at hle
    rw [ih (pre ++ [a]) post (afterArg L s a) (by simpa using hargv)
      (by rw [afterArg_i, hi]; simp) (by omega) (by rw [afterArg_i]; omega)
      (by rw [afterArg_inputs_length]; exact hlen)]
    rfl

/-- The argument loop, entered at position `pre.length` with the arguments `rest` still
to come, returns the state after one iteration on each of them. -/
theorem main_loop_spec {α : Type} (L : Libc α) (argv : List String)
    (hmax : (argv.length : Int) ≤ INT_MAX) :
    ∀ (rest pre : List String) (s : LoopState α) (fuel : Nat), argv = pre ++ rest →
      s.i = pre.length → 0 ≤ s.num_ins → s.num_ins < s.i → s.inputs.length = argv.length →
      rest.length < fuel →
      main_loop L argv.length argv fuel s = .ok (afterArgs L s rest) := by
  intro rest
  induction rest with
  | nil =>
    intro pre s fuel hargv hi _ _ _ hf
    obtain ⟨f, rfl⟩ : ∃ f, fuel = f + 1 := ⟨fuel - 1, by simp at hf; omega⟩
    rw [main_loop, if_pos (by rw [hi, hargv]; simp)]
    rfl
  | cons a rest ih =>
    intro pre s fuel hargv hi hn0 hn hlen hf
    obtain ⟨f, rfl⟩ : ∃ f, fuel = f + 1 := ⟨fuel - 1, by simp at hf; omega⟩
    have hl : (argv.length : Int) = pre.length + rest.length + 1 := by
      rw [hargv]; simp only [List.length_append, List.length_cons]; push_cast; ring
    have hb := main_loop_body_spec L argv pre rest a s hargv hi hmax hn0 hn hlen
    rw [main_loop, if_neg (by omega), hb]
    show main_loop L argv.length argv f (afterArg L s a) = _
    have hnum := afterArg_num_ins L s a
    have hle := inputVector_length_le L [a]
    simp only [List.length_singleton] at hle
    rw [ih (pre ++ [a]) (afterArg L s a) f (by simpa using hargv)
      (by rw [afterArg_i, hi]; simp) (by omega) (by rw [afterArg_i]; omega)
      (by rw [afterArg_inputs_length]; exact hlen)
      (by simp only [List.length_cons] at hf; omega)]
    rfl

/-! ## `main` as a whole -/

theorem to_size_t_ofNat (n : Nat) (h : (n : Int) ≤ INT_MAX) : to_size_t (n : Int) = n := by
  have h' : (n : Int) ≤ 2147483647 := h
  unfold to_size_t
  rw [Int.emod_eq_of_lt (by omega) (by omega)]
  simp

theorem size_t_to_int_ofNat (n : Nat) (h : (n : Int) ≤ INT_MAX) : size_t_to_int n = n := by
  have h' : (n : Int) ≤ 2147483647 := h
  have e : (n : Int) % 2 ^ 32 = n := Int.emod_eq_of_lt (by omega) (by omega)
  unfold size_t_to_int
  simp only [e]
  rw [if_pos h]

theorem outputLength_pos {α : Type} (L : Libc α) (args : List String) :
    1 ≤ outputLength L args := by
  unfold outputLength; split <;> omega

theorem outputLength_le {α : Type} (L : Libc α) (args : List String) :
    outputLength L args ≤ args.length + 1 := by
  have := inputVector_length_le L args
  unfold outputLength; split <;> omega

/-- The frame in which `main` calls `mll`, for a well-formed `argc`, `argv`. -/
theorem main_before_mll_spec {α : Type} (L : Libc α) (fuel : Nat) (argc : Int)
    (argv : List String) (hargc : argc = argv.length) (h1 : 1 ≤ argc) (hmax : argc ≤ INT_MAX)
    (hf : argv.length < fuel) :
    main_before_mll L fuel argc argv = .ok
      { backwards := decide ("-b" ∈ argv.tail)
        inputs := (afterArgs L (loopInit L argc) argv.tail).inputs
        num_ins := ((inputVector L argv.tail).length : Int)
        num_outs := outputLength L argv.tail
        outputs := List.replicate (outputLength L argv.tail) L.zero
        stdout := "mll" ++ formatVector L (inputVector L argv.tail) } := by
  subst hargc
  obtain ⟨p, args, rfl⟩ : ∃ p args, argv = p :: args := by
    cases argv with
    | nil => simp at h1
    | cons p args => exact ⟨p, args, rfl⟩
  simp only [List.tail_cons]
  have hlen : (((p :: args).length : Nat) : Int) = args.length + 1 := by simp
  have hk := inputVector_length_le L args
  have hloop := main_loop_spec L (p :: args) hmax args [p] (loopInit L ((p :: args).length : Int))
    fuel rfl rfl (le_refl _) (by simp [loopInit]) (by simp [loopInit])
    (by simp only [List.length_cons] at hf; omega)
  have hb := afterArgs_backwards L args (loopInit L ((p :: args).length : Int))
  have hn := afterArgs_num_ins L args (loopInit L ((p :: args).length : Int))
  have hil := afterArgs_inputs_length L args (loopInit L ((p :: args).length : Int))
  have ht := afterArgs_inputs_take L args (loopInit L ((p :: args).length : Int)) (le_refl _)
    (by simp only [loopInit, List.length_replicate, Int.toNat_ofNat, List.length_cons]
        push_cast; omega)
  generalize afterArgs L (loopInit L ((p :: args).length : Int)) args = s at hloop hb hn hil ht
  simp only [loopInit, Bool.false_or, zero_add, List.length_replicate, Int.toNat_ofNat,
    Int.toNat_zero, List.take_zero, List.nil_append] at hb hn hil ht
  have hpr := print_array_spec L fuel s.num_ins s.inputs (by omega) (by rw [hil, hn]; omega)
    (by omega) (by rw [hn]; simp only [List.length_cons] at hf; omega)
  rw [ht] at hpr
  rw [main_before_mll, if_neg (by omega)]
  show (main_loop L _ (p :: args) fuel (loopInit L ((p :: args).length : Int)) >>= _) = _
  rw [hloop]
  show (if s.backwards = true then _ else _) = _
  by_cases hflag : "-b" ∈ args
  · have hb' : s.backwards = true := by rw [hb]; simpa using hflag
    rw [if_pos hb', incr_ok _ (by omega)]
    have hsz : to_size_t (s.num_ins + 1) = (inputVector L args).length + 1 := by
      rw [hn]; exact_mod_cast to_size_t_ofNat ((inputVector L args).length + 1)
        (by push_cast; omega)
    show (if to_size_t (s.num_ins + 1) = 0 then _ else _) = _
    rw [hsz, if_neg (by omega)]
    show (print_array L fuel s.num_ins s.inputs >>= _) = _
    rw [hpr]
    have hout : outputLength L args = (inputVector L args).length + 1 := by
      rw [outputLength, if_pos hflag]
    rw [hout, decide_eq_true hflag, ← hb', ← hn]
    rfl
  · have hb' : ¬ (s.backwards = true) := by rw [hb]; simpa using hflag
    rw [if_neg hb', ok_bind]
    show (if to_size_t 1 = 0 then _ else _) = _
    have hsz : to_size_t 1 = 1 := to_size_t_ofNat 1 (by simp [INT_MAX])
    rw [hsz, if_neg (by omega)]
    show (print_array L fuel s.num_ins s.inputs >>= _) = _
    rw [hpr]
    have hout : outputLength L args = 1 := by rw [outputLength, if_neg hflag]
    rw [hout, decide_eq_false hflag, ← Bool.eq_false_iff.mpr hb', ← hn]
    rfl

/-- The whole run of `main` for a well-formed `argc`, `argv`: it returns, and the
second vector printed is what `mll` leaves in the output buffer it was handed. -/
theorem main_spec {α : Type} (L : Libc α) (m : MllFn α) (fuel : Nat) (argc : Int)
    (argv : List String) (hargc : argc = argv.length) (h1 : 1 ≤ argc) (hmax : argc ≤ INT_MAX)
    (hf : argv.length < fuel) :
    main L m fuel argc argv = .ok (EXIT_SUCCESS,
      "mll" ++ formatVector L (inputVector L argv.tail) ++ "=> " ++
        formatVector L (m.call (afterArgs L (loopInit L argc) argv.tail).inputs
          (List.replicate (outputLength L argv.tail) L.zero)).2) := by
  have hle := outputLength_le L argv.tail
  have hpos := outputLength_pos L argv.tail
  have htl : argv.tail.length + 1 = argv.length := by
    cases argv with
    | nil => subst hargc; simp at h1
    | cons p args => simp
  have hout : ((outputLength L argv.tail : Nat) : Int) ≤ INT_MAX := by omega
  have hlen := m.length_out (afterArgs L (loopInit L argc) argv.tail).inputs
    (List.replicate (outputLength L argv.tail) L.zero)
  rw [List.length_replicate] at hlen
  have hpr := print_array_spec L fuel (outputLength L argv.tail : Nat)
    (m.call (afterArgs L (loopInit L argc) argv.tail).inputs
      (List.replicate (outputLength L argv.tail) L.zero)).2
    (by omega) (by rw [hlen]) hout (by omega)
  rw [Int.toNat_ofNat, List.take_of_length_le (by omega)] at hpr
  rw [main, main_before_mll_spec L fuel argc argv hargc h1 hmax hf, ok_bind]
  show (print_array L fuel (size_t_to_int (outputLength L argv.tail)) _ >>= _) = _
  rw [size_t_to_int_ofNat _ hout, hpr]
  rfl

theorem flagsInserted_inputVector {α : Type} (L : Libc α) {l l' : List String}
    (h : FlagsInserted l l') : inputVector L l' = inputVector L l := by
  induction h with
  | nil => rfl
  | keep a _ ih =>
    by_cases ha : a = "-b"
    · subst ha; rw [inputVector_cons_flag, inputVector_cons_flag, ih]
    · rw [inputVector_cons_other L a _ ha, inputVector_cons_other L a _ ha, ih]
  | flag _ ih => rw [inputVector_cons_flag, ih]

theorem flagsInserted_mem {l l' : List String} (h : FlagsInserted l l') :
    "-b" ∈ l → "-b" ∈ l' := by
  induction h with
  | nil => exact id
  | keep a _ ih =>
    intro hm
    rcases List.mem_cons.mp hm with e | hm'
    · exact List.mem_cons.mpr (Or.inl e)
    · exact List.mem_cons.mpr (Or.inr (ih hm'))
  | flag _ _ => intro _; exact List.mem_cons_self _ _

/-- The frame at the call of `mll` holds the input vector of the specification in the
first `num_ins` slots of `inputs`. -/
theorem input_vector_take_aux {α : Type} (L : Libc α) (fuel : Nat) (argc : Int)
    (argv : List String) (hargc : argc = argv.length) (h1 : 1 ≤ argc) (hmax : argc ≤ INT_MAX)
    (hf : argv.length < fuel) :
    ∃ f : Frame α, main_before_mll L fuel argc argv = .ok f ∧
      f.inputs.take f.num_ins.toNat = inputVector L argv.tail ∧
      f.num_ins = ((inputVector L argv.tail).length : Int) ∧
      (f.inputs.length : Int) = argc := by
  refine ⟨_, main_before_mll_spec L fuel argc argv hargc h1 hmax hf, ?_, rfl, ?_⟩
  · obtain ⟨p, args, rfl⟩ : ∃ p args, argv = p :: args := by
      cases argv with
      | nil => subst hargc; simp at h1
      | cons p args => exact ⟨p, args, rfl⟩
    subst hargc
    have hk := inputVector_length_le L args
    have hn := afterArgs_num_ins L args (loopInit L ((p :: args).length : Int))
    have ht := afterArgs_inputs_take L args (loopInit L ((p :: args).length : Int)) (le_refl _)
      (by simp only [loopInit, List.length_replicate, Int.toNat_ofNat, List.length_cons]
          push_cast; omega)
    simp only [loopInit, zero_add, Int.toNat_zero, List.take_zero, List.nil_append] at hn ht
    simp only [List.tail_cons, Int.toNat_ofNat]
    rw [hn, Int.toNat_ofNat] at ht
    exact ht
  · simp only []
    rw [afterArgs_inputs_length, hargc]
    simp [loopInit]

theorem join_cons (a : String) (l : List String) :
    String.join (a :: l) = a ++ String.join l := by
  apply String.ext
  simp [String.join_eq]

theorem intercalate_go_eq_join (s : String) (l : List String) (acc : String) :
    String.intercalate.go acc s l = acc ++ String.join (l.map (fun y => s ++ y)) := by
  induction l generalizing acc with
  | nil => simp [String.intercalate.go, String.join]
  | cons a l ih =>
    rw [String.intercalate.go, ih, List.map_cons, join_cons]
    simp only [String.append_assoc]

/-- The text of a vector that is not empty: the first element, then each further
element behind one separator. -/
theorem formatVector_cons {α : Type} (L : Libc α) (x : α) (xs : List α) :
    formatVector L (x :: xs)
      = "(" ++ L.fmt_f x ++ String.join (xs.map (fun y => ", " ++ L.fmt_f y)) ++ ")\n" := by
  rw [formatVector, List.map_cons, String.intercalate, intercalate_go_eq_join, List.map_map,
    String.append_assoc "("]
  rfl

/-- The concrete library `dblLibc` keeps the rule of the C library for text without a
number. -/
theorem dblLibc_atof_zero : AtofZeroWithoutNumber dblLibc := by
  intro s hs
  show (if hasNumber s = true then _ else Dbl.fin false 0) = Dbl.fin false 0
  rw [if_neg (by rw [hs]; decide)]

/-! ## The claims of the specification -/

/-- C1: for every argument list, the input vector that the parse loop of `main` builds
(the first `num_ins` slots of `inputs`) is the list of the arguments other than `-b`,
each converted with `atof`, in command line order; so `num_ins` is the number of
arguments other than `-b`, wherever the `-b` tokens stand. -/
theorem input_vector_is_converted_non_flags {α : Type} (L : Libc α) (fuel : Nat) (argc : Int)
    (argv : List String) (hargc : argc = argv.length) (h1 : 1 ≤ argc) (hmax : argc ≤ INT_MAX)
    (hf : argv.length < fuel) :
    ∃ f : Frame α, main_before_mll L fuel argc argv = .ok f ∧
      f.inputs.take f.num_ins.toNat = (argv.tail.filter (fun a => a ≠ "-b")).map L.atof ∧
      f.num_ins = ((argv.tail.filter (fun a => a ≠ "-b")).length : Int) := by
  obtain ⟨f, hf1, ht, hn, -⟩ := input_vector_take_aux L fuel argc argv hargc h1 hmax hf
  refine ⟨f, hf1, ht, ?_⟩
  rw [hn]; simp [inputVector]

/-- Witness of C1 on the arguments `1 -b 2`. -/
theorem input_vector_is_converted_non_flags_witness :
    ((4 : Int) = (["mll", "1", "-b", "2"] : List String).length ∧ (1 : Int) ≤ 4 ∧
      (4 : Int) ≤ INT_MAX ∧ (["mll", "1", "-b", "2"] : List String).length < 5) ∧
    ∃ f : Frame Nat, main_before_mll natLibc 5 4 ["mll", "1", "-b", "2"] = .ok f ∧
      f.inputs.take f.num_ins.toNat = [1, 2] ∧ f.num_ins = 2 := by
  refine ⟨⟨rfl, by decide, by decide, by decide⟩, ?_⟩
  obtain ⟨f, hf, ht, hn⟩ :=
    input_vector_is_converted_non_flags natLibc 5 4 ["mll", "1", "-b", "2"] rfl (by decide)
      (by decide) (by decide)
  exact ⟨f, hf, ht.trans rfl, hn.trans rfl⟩

/-- C2: for every argument list with `k` arguments other than `-b`, the number of
output slots `num_outs` is `1` when no argument is `-b` and `k + 1` when some argument
is `-b`; the output buffer has that many slots. -/
theorem output_length_by_flag {α : Type} (L : Libc α) (fuel : Nat) (argc : Int)
    (argv : List String) (hargc : argc = argv.length) (h1 : 1 ≤ argc) (hmax : argc ≤ INT_MAX)
    (hf : argv.length < fuel) :
    ∃ f : Frame α, main_before_mll L fuel argc argv = .ok f ∧
      f.outputs.length = f.num_outs ∧
      ("-b" ∉ argv.tail → f.num_outs = 1) ∧
      ("-b" ∈ argv.tail → f.num_outs = (argv.tail.filter (fun a => a ≠ "-b")).length + 1) := by
  refine ⟨_, main_before_mll_spec L fuel argc argv hargc h1 hmax hf, ?_, ?_, ?_⟩
  · simp
  · intro h; simp [outputLength, h]
  · intro h; simp [outputLength, h, inputVector]

/-- Witness of C2 on the arguments `1 2 -b`: three output slots. -/
theorem output_length_by_flag_witness :
    ((4 : Int) = (["mll", "1", "2", "-b"] : List String).length ∧ (1 : Int) ≤ 4 ∧
      (4 : Int) ≤ INT_MAX ∧ (["mll", "1", "2", "-b"] : List String).length < 5) ∧
    ∃ f : Frame Nat, main_before_mll natLibc 5 4 ["mll", "1", "2", "-b"] = .ok f ∧
      f.outputs.length = f.num_outs ∧ f.num_outs = 3 := by
  refine ⟨⟨rfl, by decide, by decide, by decide⟩, ?_⟩
  obtain ⟨f, hf, hl, -, hb⟩ :=
    output_length_by_flag natLibc 5 4 ["mll", "1", "2", "-b"] rfl (by decide) (by decide)
      (by decide)
  exact ⟨f, hf, hl, (hb (by decide)).trans rfl⟩

/-- C3: after parsing, `backwards` is true exactly when some argument is the string
`-b`; and for an argument list that contains `-b`, inserting further `-b` tokens at any
positions leaves the flag, the input vector and the output length as they were. -/
theorem flag_iff_present_and_idempotent {α : Type} (L : Libc α) (fuel : Nat) (argc : Int)
    (argv : List String) (hargc : argc = argv.length) (h1 : 1 ≤ argc) (hmax : argc ≤ INT_MAX)
    (hf : argv.length < fuel) :
    ∃ f : Frame α, main_before_mll L fuel argc argv = .ok f ∧
      (f.backwards = true ↔ "-b" ∈ argv.tail) ∧
      ∀ (fuel' : Nat) (argc' : Int) (argv' : List String), argc' = argv'.length → 1 ≤ argc' →
        argc' ≤ INT_MAX → argv'.length < fuel' → "-b" ∈ argv.tail →
        FlagsInserted argv.tail argv'.tail →
        ∃ f' : Frame α, main_before_mll L fuel' argc' argv' = .ok f' ∧
          f'.backwards = f.backwards ∧
          f'.inputs.take f'.num_ins.toNat = f.inputs.take f.num_ins.toNat ∧
          f'.num_ins = f.num_ins ∧
          f'.num_outs = f.num_outs := by
  obtain ⟨f, hf1, ht, -, -⟩ :=
    input_vector_take_aux L fuel argc argv hargc h1 hmax hf
  have hspec := main_before_mll_spec L fuel argc argv hargc h1 hmax hf
  rw [hf1] at hspec
  have hfe := Except.ok.inj hspec
  refine ⟨f, hf1, ?_, ?_⟩
  · rw [hfe]; simp
  · intro fuel' argc' argv' hargc' h1' hmax' hf' hmem hins
    obtain ⟨f', hf1', ht', -, -⟩ :=
      input_vector_take_aux L fuel' argc' argv' hargc' h1' hmax' hf'
    have hspec' := main_before_mll_spec L fuel' argc' argv' hargc' h1' hmax' hf'
    rw [hf1'] at hspec'
    have hfe' := Except.ok.inj hspec'
    have hiv := flagsInserted_inputVector L hins
    have hmem' := flagsInserted_mem hins hmem
    refine ⟨f', hf1', ?_, ?_, ?_, ?_⟩
    · rw [hfe, hfe']; simp [hmem, hmem']
    · rw [ht, ht', hiv]
    · rw [hfe, hfe']; simp [hiv]
    · rw [hfe, hfe']; simp [outputLength, hmem, hmem', hiv]

/-- Witness of C3: the arguments `-b 3`, and `-b -b 3` with one more `-b` inserted. -/
theorem flag_iff_present_and_idempotent_witness :
    ((3 : Int) = (["mll", "-b", "3"] : List String).length ∧ (1 : Int) ≤ 3 ∧
      (3 : Int) ≤ INT_MAX ∧ (["mll", "-b", "3"] : List String).length < 4) ∧
    ∃ f : Frame Nat, main_before_mll natLibc 4 3 ["mll", "-b", "3"] = .ok f ∧
      f.backwards = true ∧ f.inputs.take f.num_ins.toNat = [3] ∧
      ∃ f' : Frame Nat, main_before_mll natLibc 5 4 ["mll", "-b", "-b", "3"] = .ok f' ∧
        f'.backwards = f.backwards ∧
        f'.inputs.take f'.num_ins.toNat = f.inputs.take f.num_ins.toNat ∧
        f'.num_ins = f.num_ins ∧
        f'.num_outs = f.num_outs := by
  refine ⟨⟨rfl, by decide, by decide, by decide⟩, ?_⟩
  obtain ⟨f, hf, hb, hall⟩ :=
    flag_iff_present_and_idempotent natLibc 4 3 ["mll", "-b", "3"] rfl (by decide) (by decide)
      (by decide)
  have hval : main_before_mll natLibc 4 3 ["mll", "-b", "3"]
      = .ok ⟨true, [3, 0, 0], 1, 2, [0, 0], "mll(3.000000)\n"⟩ := rfl
  have hfe : f = ⟨true, [3, 0, 0], 1, 2, [0, 0], "mll(3.000000)\n"⟩ :=
    Except.ok.inj (hf.symm.trans hval)
  refine ⟨f, hf, hb.mpr (by decide), by rw [hfe]; rfl, ?_⟩
  exact hall 5 4 ["mll", "-b", "-b", "3"] rfl (by decide) (by decide) (by decide) (by decide)
    (FlagsInserted.flag (FlagsInserted.keep "-b" (FlagsInserted.keep "3" FlagsInserted.nil)))

/-- C4: for every argument list, when `main` calls `mll` the output buffer has
`num_outs` slots and each of them holds `0.0`; the second vector printed is what `mll`
leaves in that buffer, so a slot that `mll` leaves as it was is printed as the `%f`
text of `0.0`. -/
theorem outputs_zeroed_at_call {α : Type} (L : Libc α) (fuel : Nat) (argc : Int)
    (argv : List String) (hargc : argc = argv.length) (h1 : 1 ≤ argc) (hmax : argc ≤ INT_MAX)
    (hf : argv.length < fuel) :
    ∃ f : Frame α, main_before_mll L fuel argc argv = .ok f ∧
      f.outputs.length = f.num_outs ∧
      f.outputs = List.replicate f.num_outs L.zero ∧
      (∀ j : Nat, j < f.num_outs → f.outputs[j]? = some L.zero) ∧
      ∀ m : MllFn α,
        main L m fuel argc argv = .ok (EXIT_SUCCESS,
          f.stdout ++ "=> " ++ formatVector L (m.call f.inputs f.outputs).2) ∧
        ∀ j : Nat, j < f.num_outs → (m.call f.inputs f.outputs).2[j]? = f.outputs[j]? →
          ((m.call f.inputs f.outputs).2.map L.fmt_f)[j]? = some (L.fmt_f L.zero) := by
  have hz : ∀ (n j : Nat), j < n → (List.replicate n L.zero)[j]? = some L.zero := by
    intro n j hj
    rw [List.getElem?_eq_getElem (by simpa using hj)]
    simp
  refine ⟨_, main_before_mll_spec L fuel argc argv hargc h1 hmax hf, ?_, rfl, ?_, ?_⟩
  · simp
  · intro j hj; exact hz _ j hj
  · intro m
    refine ⟨main_spec L m fuel argc argv hargc h1 hmax hf, ?_⟩
    intro j hj hsame
    rw [List.getElem?_map, hsame, hz _ j hj]
    rfl

/-- Witness of C4 on the arguments `1 2 -b`: the buffer handed to `mll` is
`[0.0, 0.0, 0.0]`. -/
theorem outputs_zeroed_at_call_witness :
    ((4 : Int) = (["mll", "1", "2", "-b"] : List String).length ∧ (1 : Int) ≤ 4 ∧
      (4 : Int) ≤ INT_MAX ∧ (["mll", "1", "2", "-b"] : List String).length < 5) ∧
    ∃ f : Frame Nat, main_before_mll natLibc 5 4 ["mll", "1", "2", "-b"] = .ok f ∧
      f.outputs = [0, 0, 0] ∧
      main natLibc (mllSkip Nat) 5 4 ["mll", "1", "2", "-b"] = .ok (EXIT_SUCCESS,
        f.stdout ++ "=> " ++ formatVector natLibc [0, 0, 0]) := by
  refine ⟨⟨rfl, by decide, by decide, by decide⟩, ?_⟩
  obtain ⟨f, hf, -, hrep, -, hm⟩ :=
    outputs_zeroed_at_call natLibc 5 4 ["mll", "1", "2", "-b"] rfl (by decide) (by decide)
      (by decide)
  have hval : main_before_mll natLibc 5 4 ["mll", "1", "2", "-b"]
      = .ok ⟨true, [1, 2, 0, 0], 2, 3, [0, 0, 0], "mll(1.000000, 2.000000)\n"⟩ := rfl
  have hfe : f = ⟨true, [1, 2, 0, 0], 2, 3, [0, 0, 0], "mll(1.000000, 2.000000)\n"⟩ :=
    Except.ok.inj (hf.symm.trans hval)
  have houts : f.outputs = [0, 0, 0] := by rw [hfe]
  refine ⟨f, hf, houts, ?_⟩
  have h := (hm (mllSkip Nat)).1
  rw [show ((mllSkip Nat).call f.inputs f.outputs).2 = f.outputs from rfl, houts] at h
  exact h

/-- C5: for `0 ≤ n` and an array `a` of at least `n` elements, `print_array (n, a)`
writes `(`, the `%f` texts of `a[0], ..., a[n-1]` joined by `", "`, and `)` with a
newline.  Written out: the first element with nothing before it, each of the `n - 1`
further elements behind one separator, nothing after the last; and `()` with a newline
for `n = 0`. -/
theorem print_array_text {α : Type} (L : Libc α) (fuel : Nat) (n : Int) (a : List α)
    (h0 : 0 ≤ n) (hlen : n ≤ a.length) (hmax : n ≤ INT_MAX) (hf : n < fuel) :
    print_array L fuel n a
        = .ok ("(" ++ String.intercalate ", " ((a.take n.toNat).map L.fmt_f) ++ ")\n") ∧
      (n = 0 → print_array L fuel n a = .ok "()\n") ∧
      ∀ (x : α) (xs : List α), a.take n.toNat = x :: xs →
        ((xs.length : Int) = n - 1 ∧
          print_array L fuel n a = .ok ("(" ++ L.fmt_f x ++
            String.join (xs.map (fun y => ", " ++ L.fmt_f y)) ++ ")\n")) := by
  have hp := print_array_spec L fuel n a h0 hlen hmax hf
  refine ⟨hp, ?_, ?_⟩
  · intro hn
    rw [hp, hn]
    rfl
  · intro x xs hx
    have hl : (a.take n.toNat).length = n.toNat := List.length_take_of_le (by omega)
    rw [hx, List.length_cons] at hl
    refine ⟨by omega, ?_⟩
    rw [hp, hx, formatVector_cons]

/-- Witness of C5: three elements of a four element array. -/
theorem print_array_text_witness :
    ((0 : Int) ≤ 3 ∧ (3 : Int) ≤ ([1, 2, 3, 4] : List Nat).length ∧ (3 : Int) ≤ INT_MAX ∧
      (3 : Int) < (4 : Nat)) ∧
    print_array natLibc 4 3 [1, 2, 3, 4] = .ok "(1.000000, 2.000000, 3.000000)\n" := by
  refine ⟨⟨by decide, by decide, by decide, by decide⟩, ?_⟩
  have h := (print_array_text natLibc 4 3 [1, 2, 3, 4] (by decide) (by decide) (by decide)
    (by decide)).1
  rw [h]
  rfl

/-- C6, as the claim states it, fails: with no arguments and an `mll` that stores `7.0`
in the output slot, the second line is `=> (7.000000)`. -/
theorem no_arguments_output_not_fixed :
    main natLibc (mllFill 7) 2 1 ["mll"] = .ok (0, "mll()\n=> (7.000000)\n") ∧
    main natLibc (mllFill 7) 2 1 ["mll"] ≠ .ok (0, "mll()\n=> (0.000000)\n") := by
  have h : main natLibc (mllFill 7) 2 1 ["mll"] = .ok (0, "mll()\n=> (7.000000)\n") := rfl
  refine ⟨h, ?_⟩
  rw [h]
  intro e
  have e2 := congrArg Prod.snd (Except.ok.inj e)
  exact absurd e2 (by decide)

/-- C6, amended: with no arguments (`argc = 1`) `main` writes `mll()`, a newline, `=> (`,
the `%f` text of the value that `mll` leaves in the one output slot, `)` and a newline,
and returns `0`; `mll` is handed a one slot input buffer and a one slot output buffer,
both holding `0.0`.  When `mll` leaves the output slot as it was and `%f` writes `0.0`
as `0.000000`, the text is `mll()`, newline, `=> (0.000000)`, newline. -/
theorem no_arguments_output {α : Type} (L : Libc α) (m : MllFn α) (fuel : Nat)
    (argv : List String) (hlen : argv.length = 1) (hf : 2 ≤ fuel) :
    ∃ x : α, (m.call [L.zero] [L.zero]).2 = [x] ∧
      main L m fuel 1 argv = .ok (0, "mll()\n=> (" ++ L.fmt_f x ++ ")\n") ∧
      (x = L.zero → L.fmt_f L.zero = "0.000000" →
        main L m fuel 1 argv = .ok (0, "mll()\n=> (0.000000)\n")) := by
  obtain ⟨p, rfl⟩ : ∃ p, argv = [p] := by
    match argv, hlen with
    | [p], _ => exact ⟨p, rfl⟩
  have hl := m.length_out [L.zero] [L.zero]
  obtain ⟨x, hx⟩ : ∃ x, (m.call [L.zero] [L.zero]).2 = [x] := by
    match hc : (m.call [L.zero] [L.zero]).2, hl with
    | [x], _ => exact ⟨x, rfl⟩
  have hmain := main_spec L m fuel 1 [p] rfl (le_refl _) (by decide) (by simp; omega)
  have hmain' : main L m fuel 1 [p] = .ok (0, "mll()\n=> (" ++ L.fmt_f x ++ ")\n") := by
    rw [hmain]
    show Except.ok (EXIT_SUCCESS, "mll" ++ formatVector L [] ++ "=> " ++
      formatVector L (m.call [L.zero] [L.zero]).2) = _
    rw [hx]
    rfl
  refine ⟨x, hx, hmain', ?_⟩
  intro hxz hfmt
  rw [hmain', hxz, hfmt]
  rfl

/-- Witness of the amended C6 with an `mll` that touches nothing. -/
theorem no_arguments_output_witness :
    ((["mll"] : List String).length = 1 ∧ 2 ≤ 2) ∧
    main natLibc (mllSkip Nat) 2 1 ["mll"] = .ok (0, "mll()\n=> (0.000000)\n") := by
  refine ⟨⟨rfl, le_refl _⟩, ?_⟩
  obtain ⟨x, hx, -, h⟩ := no_arguments_output natLibc (mllSkip Nat) 2 ["mll"] rfl (le_refl _)
  have hx0 : x = 0 := by
    have : ([0] : List Nat) = [x] := hx
    exact (List.head_eq_of_cons_eq this).symm
  exact h hx0 rfl

/-- C7, as the claim states it, fails: the arguments `inf` and `nan` are not `-b` and
are text without a digit, and the parse loop stores infinity and NaN for them, not
`0.0`. -/
theorem digit_free_arguments_not_zero :
    ("inf" ≠ "-b" ∧ "nan" ≠ "-b" ∧ "inf".toList.any isDigitC = false ∧
      "nan".toList.any isDigitC = false) ∧
    ∃ f : Frame Dbl, main_before_mll dblLibc 4 3 ["mll", "inf", "nan"] = .ok f ∧
      f.inputs.take f.num_ins.toNat = [Dbl.inf false, Dbl.nan] ∧
      Dbl.inf false ≠ dblLibc.zero ∧ Dbl.nan ≠ dblLibc.zero := by
  refine ⟨⟨by decide, by decide, rfl, rfl⟩, ?_⟩
  have hval : main_before_mll dblLibc 4 3 ["mll", "inf", "nan"]
      = .ok ⟨false, [Dbl.inf false, Dbl.nan, Dbl.fin false 0], 2, 1, [Dbl.fin false 0],
          "mll(inf, nan)\n"⟩ := rfl
  exact ⟨_, hval, rfl, by decide, by decide⟩

/-- C7, amended: for a C library whose `atof` returns zero when it can convert nothing,
an argument that is not `-b` and does not start with a number (behind white space and
an optional sign: no digit, no decimal point and digit, neither `inf` nor `nan`; for
instance `abc`) puts `0.0` into the input vector at its position, between the inputs of
the arguments before it and those of the arguments after it; the run goes on and `main`
returns `0`. -/
theorem text_without_number_gives_zero {α : Type} (L : Libc α) (m : MllFn α) (fuel : Nat)
    (argc : Int) (argv : List String) (p : String) (pre post : List String) (a : String)
    (hargv : argv = p :: (pre ++ a :: post)) (hargc : argc = argv.length)
    (hmax : argc ≤ INT_MAX) (hf : argv.length < fuel) (ha : a ≠ "-b")
    (hlibc : AtofZeroWithoutNumber L) (hnum : hasNumber a = false) :
    ∃ f : Frame α, main_before_mll L fuel argc argv = .ok f ∧
      f.inputs.take f.num_ins.toNat = inputVector L pre ++ L.zero :: inputVector L post ∧
      f.inputs[(inputVector L pre).length]? = some L.zero ∧
      ∃ out : String, main L m fuel argc argv = .ok (0, out) := by
  have hz : L.atof a = L.zero := hlibc a hnum
  have h1 : 1 ≤ argc := by rw [hargc, hargv]; simp only [List.length_cons]; push_cast; omega
  obtain ⟨f, hf1, ht, -, -⟩ := input_vector_take_aux L fuel argc argv hargc h1 hmax hf
  have hiv : inputVector L argv.tail = inputVector L pre ++ L.zero :: inputVector L post := by
    rw [hargv, List.tail_cons, inputVector_append, inputVector_cons_other L a post ha, hz]
  rw [hiv] at ht
  refine ⟨f, hf1, ht, ?_, _, main_spec L m fuel argc argv hargc h1 hmax hf⟩
  have hget : (f.inputs.take f.num_ins.toNat)[(inputVector L pre).length]? = some L.zero := by
    rw [ht, List.getElem?_append_right (Nat.le_refl _)]
    simp
  have hlt : (inputVector L pre).length < f.num_ins.toNat := by
    have hl := congrArg List.length ht
    rw [List.length_take, List.length_append, List.length_cons] at hl
    omega
  rw [List.getElem?_take_of_lt hlt] at hget
  exact hget

/-- Witness of the amended C7 on the arguments `1 abc -b 2`: the input vector is
`[1.0, 0.0, 2.0]`. -/
theorem text_without_number_gives_zero_witness :
    ((["mll", "1", "abc", "-b", "2"] : List String) = "mll" :: (["1"] ++ "abc" :: ["-b", "2"]) ∧
      (5 : Int) = (["mll", "1", "abc", "-b", "2"] : List String).length ∧
      (5 : Int) ≤ INT_MAX ∧ (["mll", "1", "abc", "-b", "2"] : List String).length < 6 ∧
      "abc" ≠ "-b" ∧ AtofZeroWithoutNumber dblLibc ∧ hasNumber "abc" = false) ∧
    ∃ f : Frame Dbl, main_before_mll dblLibc 6 5 ["mll", "1", "abc", "-b", "2"] = .ok f ∧
      f.inputs.take f.num_ins.toNat = [Dbl.fin false 1, Dbl.fin false 0, Dbl.fin false 2] ∧
      f.inputs[1]? = some (Dbl.fin false 0) ∧
      ∃ out : String,
        main dblLibc (mllSkip Dbl) 6 5 ["mll", "1", "abc", "-b", "2"] = .ok (0, out) := by
  refine ⟨⟨rfl, rfl, by decide, by decide, by decide, dblLibc_atof_zero, rfl⟩, ?_⟩
  obtain ⟨f, hf, ht, hp, hm⟩ :=
    text_without_number_gives_zero dblLibc (mllSkip Dbl) 6 5 ["mll", "1", "abc", "-b", "2"]
      "mll" ["1"] ["-b", "2"] "abc" rfl rfl (by decide) (by decide) (by decide)
      dblLibc_atof_zero rfl
  exact ⟨f, hf, ht.trans rfl, hp, hm⟩

/-- C8: for every argument list `main` returns the exit status `0` (`EXIT_SUCCESS`);
and whatever `argc`, `argv` and step budget the model is run on, a run that returns
has exit status `0`. -/
theorem main_returns_success {α : Type} (L : Libc α) (m : MllFn α) (fuel : Nat) (argc : Int)
    (argv : List String) (hargc : argc = argv.length) (h1 : 1 ≤ argc) (hmax : argc ≤ INT_MAX)
    (hf : argv.length < fuel) :
    (∃ out : String, main L m fuel argc argv = .ok (0, out)) ∧
      ∀ (fuel' : Nat) (argc' : Int) (argv' : List String) (r : Int × String),
        main L m fuel' argc' argv' = .ok r → r.1 = 0 := by
  refine ⟨⟨_, main_spec L m fuel argc argv hargc h1 hmax hf⟩, ?_⟩
  intro fuel' argc' argv' r hr
  rw [main] at hr
  cases hb : main_before_mll L fuel' argc' argv' with
  | error e => rw [hb] at hr; exact absurd hr (by intro h; cases h)
  | ok f =>
    rw [hb, ok_bind] at hr
    cases hp : print_array L fuel' (size_t_to_int f.num_outs) (m.call f.inputs f.outputs).2 with
    | error e =>
      have hr' : (print_array L fuel' (size_t_to_int f.num_outs) (m.call f.inputs f.outputs).2
          >>= fun text => Except.ok (EXIT_SUCCESS, f.stdout ++ "=> " ++ text)) = .ok r := hr
      rw [hp] at hr'
      exact absurd hr' (by intro h; cases h)
    | ok t =>
      have hr' : (print_array L fuel' (size_t_to_int f.num_outs) (m.call f.inputs f.outputs).2
          >>= fun text => Except.ok (EXIT_SUCCESS, f.stdout ++ "=> " ++ text)) = .ok r := hr
      rw [hp, ok_bind] at hr'
      rw [← Except.ok.inj hr']
      rfl

/-- Witness of C8 on arguments none of which is a number. -/
theorem main_returns_success_witness :
    ((3 : Int) = (["mll", "abc", "x"] : List String).length ∧ (1 : Int) ≤ 3 ∧
      (3 : Int) ≤ INT_MAX ∧ (["mll", "abc", "x"] : List String).length < 4) ∧
    (∃ out : String, main natLibc (mllFill 7) 4 3 ["mll", "abc", "x"] = .ok (0, out)) ∧
      ∀ (fuel' : Nat) (argc' : Int) (argv' : List String) (r : Int × String),
        main natLibc (mllFill 7) fuel' argc' argv' = .ok r → r.1 = 0 :=
  ⟨⟨rfl, by decide, by decide, by decide⟩,
    main_returns_success natLibc (mllFill 7) 4 3 ["mll", "abc", "x"] rfl (by decide)
      (by decide) (by decide)⟩

/-- C9: for `argc ≥ 1` the state after `k ≤ argc - 1` iterations of the parse loop has
`i = k + 1` and `0 ≤ num_ins ≤ i - 1 < argc`, with `inputs` of `argc` slots, so the
write `inputs[num_ins]` of a further iteration is inside the buffer, and the loop
condition fails exactly at `k = argc - 1`: the loop is `argc - 1` iterations of its
body.  Afterwards `1 ≤ num_outs ≤ argc`, `num_ins + 1` is within `int`, and both
`print_array` calls run without reading outside their buffers. -/
theorem parse_loop_bounds {α : Type} (L : Libc α) (fuel : Nat) (argc : Int)
    (argv : List String) (hargc : argc = argv.length) (h1 : 1 ≤ argc) (hmax : argc ≤ INT_MAX)
    (hf : argv.length < fuel) :
    (∀ k : Nat, (k : Int) ≤ argc - 1 →
      ∃ s : LoopState α, iterate_body L argv k (loopInit L argc) = .ok s ∧
        s.i = k + 1 ∧ 0 ≤ s.num_ins ∧ s.num_ins ≤ s.i - 1 ∧ s.i - 1 < argc ∧
        (s.inputs.length : Int) = argc ∧ s.num_ins < s.inputs.length ∧
        (s.i = argc ↔ (k : Int) = argc - 1)) ∧
    (∃ s : LoopState α, main_loop L argc argv fuel (loopInit L argc) = .ok s ∧
      iterate_body L argv (argc - 1).toNat (loopInit L argc) = .ok s) ∧
    ∃ f : Frame α, main_before_mll L fuel argc argv = .ok f ∧
      1 ≤ f.num_outs ∧ (f.num_outs : Int) ≤ argc ∧ size_t_to_int f.num_outs = f.num_outs ∧
      0 ≤ f.num_ins ∧ f.num_ins + 1 ≤ INT_MAX ∧ f.num_ins ≤ f.inputs.length ∧
      f.outputs.length = f.num_outs ∧
      (∃ t : String, print_array L fuel f.num_ins f.inputs = .ok t) ∧
      ∀ m : MllFn α, ∃ t : String,
        print_array L fuel (size_t_to_int f.num_outs) (m.call f.inputs f.outputs).2 = .ok t := by
  subst hargc
  obtain ⟨p, args, rfl⟩ : ∃ p args, argv = p :: args := by
    cases argv with
    | nil => simp at h1
    | cons p args => exact ⟨p, args, rfl⟩
  have hlen : (((p :: args).length : Nat) : Int) = args.length + 1 := by simp
  have hinit_len : (loopInit L ((p :: args).length : Int)).inputs.length = (p :: args).length := by
    simp [loopInit]
  have hiter : ∀ mid post : List String, args = mid ++ post →
      iterate_body L (p :: args) mid.length (loopInit L ((p :: args).length : Int))
        = .ok (afterArgs L (loopInit L ((p :: args).length : Int)) mid) := by
    intro mid post hsplit
    exact iterate_body_spec L (p :: args) hmax mid [p] post _ (by rw [hsplit]; rfl) rfl
      (le_refl _) (by simp [loopInit]) hinit_len
  refine ⟨?_, ?_, ?_⟩
  · intro k hk
    have hk' : k ≤ args.length := by omega
    have hmid : (args.take k).length = k := List.length_take_of_le hk'
    have h := hiter (args.take k) (args.drop k) (List.take_append_drop k args).symm
    rw [hmid] at h
    have hi := afterArgs_i L (args.take k) (loopInit L ((p :: args).length : Int))
    have hn := afterArgs_num_ins L (args.take k) (loopInit L ((p :: args).length : Int))
    have hil := afterArgs_inputs_length L (args.take k) (loopInit L ((p :: args).length : Int))
    have hle := inputVector_length_le L (args.take k)
    rw [hinit_len] at hil
    rw [hmid] at hi hle
    generalize afterArgs L (loopInit L ((p :: args).length : Int)) (args.take k) = s
      at h hi hn hil
    simp only [loopInit, zero_add] at hi hn
    refine ⟨s, h, by omega, by omega, by omega, by omega, by omega, by omega, ?_⟩
    constructor <;> intro <;> omega
  · have hloop := main_loop_spec L (p :: args) hmax args [p]
      (loopInit L ((p :: args).length : Int)) fuel rfl rfl (le_refl _) (by simp [loopInit])
      hinit_len (by simp only [List.length_cons] at hf; omega)
    refine ⟨_, hloop, ?_⟩
    have h := hiter args [] (List.append_nil args).symm
    have e : (((p :: args).length : Nat) : Int) - 1 = (args.length : Nat) := by omega
    rw [e, Int.toNat_ofNat]
    exact h
  · have hle := outputLength_le L args
    have hpos := outputLength_pos L args
    have hk := inputVector_length_le L args
    have hout : ((outputLength L args : Nat) : Int) ≤ INT_MAX := by omega
    obtain ⟨f, hf1, ht, hn, hil⟩ :=
      input_vector_take_aux L fuel ((p :: args).length : Int) (p :: args) rfl h1 hmax hf
    have hspec := main_before_mll_spec L fuel ((p :: args).length : Int) (p :: args) rfl h1
      hmax hf
    rw [hf1] at hspec
    have hfe := Except.ok.inj hspec
    have hno : f.num_outs = outputLength L args := by rw [hfe]; rfl
    have hol : f.outputs.length = f.num_outs := by rw [hfe]; simp
    simp only [List.tail_cons] at hn
    refine ⟨f, hf1, by omega, by omega, ?_, by omega, by omega, by omega, hol, ?_, ?_⟩
    · rw [hno]; exact size_t_to_int_ofNat _ hout
    · exact ⟨_, print_array_spec L fuel f.num_ins f.inputs (by omega) (by omega) (by omega)
        (by simp only [List.length_cons] at hf; omega)⟩
    · intro m
      have hml := m.length_out f.inputs f.outputs
      rw [hno, size_t_to_int_ofNat _ hout]
      exact ⟨_, print_array_spec L fuel _ _ (by omega) (by omega) hout (by omega)⟩

/-- Witness of C9 on the arguments `1 -b 2`: three iterations, two inputs. -/
theorem parse_loop_bounds_witness :
    ((4 : Int) = (["mll", "1", "-b", "2"] : List String).length ∧ (1 : Int) ≤ 4 ∧
      (4 : Int) ≤ INT_MAX ∧ (["mll", "1", "-b", "2"] : List String).length < 5) ∧
    (∃ s : LoopState Nat,
      main_loop natLibc 4 ["mll", "1", "-b", "2"] 5 (loopInit natLibc 4) = .ok s ∧
      iterate_body natLibc ["mll", "1", "-b", "2"] 3 (loopInit natLibc 4) = .ok s ∧
      s.i = 4 ∧ s.num_ins = 2 ∧ s.inputs = [1, 2, 0, 0]) ∧
    ∃ f : Frame Nat, main_before_mll natLibc 5 4 ["mll", "1", "-b", "2"] = .ok f ∧
      f.num_outs = 3 ∧ f.num_ins + 1 ≤ INT_MAX := by
  refine ⟨⟨rfl, by decide, by decide, by decide⟩, ?_⟩
  obtain ⟨-, ⟨s, hs, hit⟩, f, hf, -, -, -, -, hmax, -⟩ :=
    parse_loop_bounds natLibc 5 4 ["mll", "1", "-b", "2"] rfl (by decide) (by decide)
      (by decide)
  have hval : main_loop natLibc 4 ["mll", "1", "-b", "2"] 5 (loopInit natLibc 4)
      = .ok ⟨4, true, [1, 2, 0, 0], 2⟩ := rfl
  have hse : s = ⟨4, true, [1, 2, 0, 0], 2⟩ := Except.ok.inj (hs.symm.trans hval)
  have hfval : main_before_mll natLibc 5 4 ["mll", "1", "-b", "2"]
      = .ok ⟨true, [1, 2, 0, 0], 2, 3, [0, 0, 0], "mll(1.000000, 2.000000)\n"⟩ := rfl
  have hfe : f = ⟨true, [1, 2, 0, 0], 2, 3, [0, 0, 0], "mll(1.000000, 2.000000)\n"⟩ :=
    Except.ok.inj (hf.symm.trans hfval)
  refine ⟨⟨s, hs, hit, ?_, ?_, ?_⟩, f, hf, ?_, hmax⟩
  · rw [hse]
  · rw [hse]
  · rw [hse]
  · rw [hfe]

/-- C10: the first output line, `mll` followed by the formatted input vector, is
complete when `mll` is called and is a function of the argument list alone: for any two
implementations of `mll`, also ones that overwrite the input buffer, the two outputs
start with the same first line and `=> `, and differ at most in the text behind it. -/
theorem first_line_independent_of_mll {α : Type} (L : Libc α) (m₁ m₂ : MllFn α) (fuel : Nat)
    (argc : Int) (argv : List String) (hargc : argc = argv.length) (h1 : 1 ≤ argc)
    (hmax : argc ≤ INT_MAX) (hf : argv.length < fuel) :
    ∃ (f : Frame α) (t₁ t₂ : String), main_before_mll L fuel argc argv = .ok f ∧
      f.stdout = "mll" ++ formatVector L (inputVector L argv.tail) ∧
      main L m₁ fuel argc argv = .ok (0, f.stdout ++ "=> " ++ t₁) ∧
      main L m₂ fuel argc argv = .ok (0, f.stdout ++ "=> " ++ t₂) :=
  ⟨_, _, _, main_before_mll_spec L fuel argc argv hargc h1 hmax hf, rfl,
    main_spec L m₁ fuel argc argv hargc h1 hmax hf,
    main_spec L m₂ fuel argc argv hargc h1 hmax hf⟩

/-- Witness of C10: an `mll` that touches nothing and one that overwrites both buffers,
on the arguments `1 2 -b`. -/
theorem first_line_independent_of_mll_witness :
    ((4 : Int) = (["mll", "1", "2", "-b"] : List String).length ∧ (1 : Int) ≤ 4 ∧
      (4 : Int) ≤ INT_MAX ∧ (["mll", "1", "2", "-b"] : List String).length < 5) ∧
    ∃ (f : Frame Nat) (t₁ t₂ : String),
      main_before_mll natLibc 5 4 ["mll", "1", "2", "-b"] = .ok f ∧
      f.stdout = "mll" ++ formatVector natLibc
        (inputVector natLibc (["mll", "1", "2", "-b"] : List String).tail) ∧
      main natLibc (mllSkip Nat) 5 4 ["mll", "1", "2", "-b"] = .ok (0, f.stdout ++ "=> " ++ t₁) ∧
      main natLibc (mllFill 7) 5 4 ["mll", "1", "2", "-b"] = .ok (0, f.stdout ++ "=> " ++ t₂) :=
  ⟨⟨rfl, by decide, by decide, by decide⟩,
    first_line_independent_of_mll natLibc (mllSkip Nat) (mllFill 7) 5 4 ["mll", "1", "2", "-b"]
      rfl (by decide) (by decide) (by decide)⟩

end Mll
